import Mathlib

/-!
# A shallow embedding of the `dbf` package (dBase III reader)

The repository contains three revisions of the same file; the canonical
(most complete) implementation is the one in `src/unnamed/part_001`, which the
earlier revisions (`src/dbf.go`, `src/unnamed/part_000`) are superseded by.
All definitions below are translated from that Go source.

Modelling conventions:
* Bytes are `Nat` (values `< 256` in any real byte source; theorems that need
  the bound take it as a hypothesis).  Go strings are byte sequences, so field
  names and field values are `List Nat`.
* The seekable byte source (`io.ReadSeeker`) is a `ByteSrc`: the underlying
  bytes, a cursor, and a ghost `log` recording every byte offset that has been
  read.  The log never influences control flow; it only lets theorems speak
  about *which* bytes an operation read.
* `binary.Read` into an n-byte struct is `readN _ n`: it fails (like
  `io.ReadFull`) when fewer than `n` bytes remain.
* Fallible Go functions returning `(T, error)` become `Except DbfError T`.
* The `sync.Mutex` in `Reader` serialises concurrent calls; concurrency is not
  modelled, each operation is a single sequential function.
-/

namespace Dbf

/-- Errors produced by the reader, one constructor per `error` value the Go
source can return:
* `ioError` — an error propagated from the byte source (short read / EOF);
* `badVersion v` — `"unexepected file version: %d"`;
* `badFieldType c` — `"Sorry, dbf library doesn't recognize field type '%c'"`;
* `badTerminator hl b` — `"Header was supposed to be %d bytes long, but found
  byte %#x at that offset instead of expected byte 0x0D"`;
* `deletedRecord i` — `"record %d is deleted"`;
* `badDeletedFlag i b` — `"record %d contained an unexpected value in the
  deleted flag: %h"`;
* `atoiError s` — the `strconv.Atoi` error for input text `s` (the Go error
  carries the function name, the offending text and a syntax/range tag);
* `parseFloatError s` — the `strconv.ParseFloat` error for input text `s`. -/
inductive DbfError where
  | ioError : DbfError
  | badVersion (v : Nat) : DbfError
  | badFieldType (c : Nat) : DbfError
  | badTerminator (headerlen actual : Nat) : DbfError
  | deletedRecord (i : Int) : DbfError
  | badDeletedFlag (i : Int) (b : Nat) : DbfError
  | atoiError (s : List Nat) : DbfError
  | parseFloatError (s : List Nat) : DbfError
deriving DecidableEq, Repr

/-- Go struct `Field` (`Name [11]byte; Type byte; Offset uint32; Len uint8;
DecimalPlaces uint8; _ [14]byte`).  Field names are lower-cased for Lean
(`Type` is not a legal field name): `name`/`ftype`/`foff`/`len`/`dec`. -/
structure Field where
  name : List Nat
  ftype : Nat
  foff : Nat
  len : Nat
  dec : Nat
deriving DecidableEq, Repr

/-- Go struct `header` of `src/unnamed/part_001` (12 bytes, no padding):
`Version byte; Year, Month, Day uint8; Nrec uint32; Headerlen, Recordlen
uint16`. -/
structure Header where
  version : Nat
  year : Nat
  month : Nat
  day : Nat
  nrec : Nat
  headerlen : Nat
  recordlen : Nat
deriving DecidableEq, Repr

/-- Go struct `Reader` minus the byte source and the mutex (the byte source is
passed to each operation explicitly, see module docstring). -/
structure Reader where
  year : Nat
  month : Nat
  day : Nat
  Length : Nat
  fields : List Field
  headerlen : Nat
  recordlen : Nat
deriving DecidableEq, Repr

/-- The seekable byte source: data, cursor, and a ghost log of every byte
offset read so far (instrumentation only, never read by the model). -/
structure ByteSrc where
  data : List Nat
  pos : Nat
  log : List Nat
deriving DecidableEq, Repr

/-- Read exactly `n` bytes at the cursor (the semantics of `binary.Read` /
`io.ReadFull` on the source): fails when fewer than `n` bytes remain. -/
def readN (s : ByteSrc) (n : Nat) : Option (List Nat × ByteSrc) :=
  if s.pos + n ≤ s.data.length then
    some ((s.data.drop s.pos).take n,
      ⟨s.data, s.pos + n, s.log ++ List.range' s.pos n⟩)
  else none

/-- `Seek(off, 0)`: absolute seek.  A seek to a negative offset fails and
leaves the cursor unchanged (the Go code discards `Seek`'s results). -/
def seekAbs (s : ByteSrc) (off : Int) : ByteSrc :=
  if off < 0 then s else { s with pos := off.toNat }

/-- Little-endian 16-bit value at index `i` of a byte list. -/
def le2 (l : List Nat) (i : Nat) : Nat := l.getD i 0 + 256 * l.getD (i + 1) 0

/-- Little-endian 32-bit value at index `i` of a byte list. -/
def le4 (l : List Nat) (i : Nat) : Nat :=
  l.getD i 0 + 256 * l.getD (i + 1) 0 + 65536 * l.getD (i + 2) 0 +
    16777216 * l.getD (i + 3) 0

/-- Decoding of the 12 header bytes, little-endian (`binary.Read(r,
binary.LittleEndian, &h)`). -/
def decodeHeader (b : List Nat) : Header :=
  { version := b.getD 0 0, year := b.getD 1 0, month := b.getD 2 0,
    day := b.getD 3 0, nrec := le4 b 4, headerlen := le2 b 8,
    recordlen := le2 b 10 }

/-- Decoding of one 32-byte field descriptor: 11-byte name, 1-byte type,
4-byte LE offset, 1-byte length, 1-byte decimal places, 14 reserved bytes
(discarded). -/
def decodeField (b : List Nat) : Field :=
  { name := b.take 11, ftype := b.getD 11 0, foff := le4 b 12,
    len := b.getD 16 0, dec := b.getD 17 0 }

/-- `Field.validate`: the type tag must be one of `'C'`(67), `'N'`(78),
`'F'`(70); otherwise the error names the offending character. -/
def Field.validate (f : Field) : Option DbfError :=
  if f.ftype = 67 ∨ f.ftype = 78 ∨ f.ftype = 70 then none
  else some (.badFieldType f.ftype)

/-- The field-descriptor loop of `NewReader`:
`for offset = 0x20; offset < h.Headerlen-1; offset += 32`, with all of
`offset`, `h.Headerlen-1` and `offset + 32` computed in `uint16` arithmetic
(hence the `% 65536`).  One iteration reads 32 bytes, validates the decoded
field and appends it.  The Go code discards `binary.Read`'s error inside the
loop, so on a short read `f` keeps its zero value, whose type byte `0` then
fails `validate` — hence the `.badFieldType 0` in the `none` branch.
`fuel` makes the recursion structural; `NewReader` passes `data.length + 1`,
which exceeds any possible iteration count (every iteration consumes 32
bytes of the finite source), so the fuel-exhausted branch is unreachable
from `NewReader`. -/
def fieldLoop : Nat → ByteSrc → Nat → Nat → List Field →
    Except DbfError (List Field × ByteSrc)
  | 0, _, _, _, _ => .error .ioError
  | fuel + 1, s, off, hl, acc =>
    if off < (hl + 65535) % 65536 then
      match readN s 32 with
      | some (bs, s') =>
        match (decodeField bs).validate with
        | some e => .error e
        | none => fieldLoop fuel s' ((off + 32) % 65536) hl (acc ++ [decodeField bs])
      | none => .error (.badFieldType 0)
    else .ok (acc, s)

/-- `NewReader` (the `HeaderParser`): seek to 0, read the 12-byte header,
check the version tag is `0x03`, seek to `0x20`, run the field-descriptor
loop, then read one terminator byte which must be `0x0D` (13); the error
otherwise reports the declared header length and the actual byte. -/
def NewReader (data : List Nat) : Except DbfError Reader :=
  let s0 : ByteSrc := ⟨data, 0, []⟩
  match readN s0 12 with
  | none => .error .ioError
  | some (hb, s1) =>
    let h := decodeHeader hb
    if h.version = 3 then
      match fieldLoop (data.length + 1) (seekAbs s1 32) 32 h.headerlen [] with
      | .error e => .error e
      | .ok (fields, s3) =>
        match readN s3 1 with
        | none => .error .ioError
        | some (tb, _) =>
          let eoh := tb.headD 0
          if eoh = 13 then
            .ok ⟨1900 + h.year, h.month, h.day, h.nrec, fields,
                 h.headerlen, h.recordlen⟩
          else .error (.badTerminator h.headerlen eoh)
    else .error (.badVersion h.version)

/-- The byte-level content of `Reader.FieldName`'s loop: iterate over the name
buffer, stop at the first null byte, concatenate the rest.  (Go iterates over
the runes of the UTF-8 interpretation of the bytes; on 7-bit data — DBF field
names are ASCII — the rune loop coincides with this byte loop, and a null
rune occurs exactly at a null byte.) -/
def fieldNameBytes : List Nat → List Nat
  | [] => []
  | b :: rest => if b = 0 then [] else b :: fieldNameBytes rest

/-- `Reader.FieldName(i)`: the logical name of field `i` (Go indexing panics
out of range; the model totalises with a zero field, claims only use
in-range indices). -/
def Reader.FieldName (rd : Reader) (i : Nat) : List Nat :=
  fieldNameBytes ((rd.fields.getD i ⟨[], 0, 0, 0, 0⟩).name)

/-- The logical name of a field descriptor; `Reader.FieldName rd i` is
`(rd.fields.getD i _).fieldName`. -/
def Field.fieldName (f : Field) : List Nat := fieldNameBytes f.name

/-- ASCII whitespace bytes trimmed by `strings.TrimSpace`: `\t \n \v \f \r`
and space.  (`TrimSpace` trims Unicode whitespace of the UTF-8
interpretation; on byte values `< 128` that is exactly this set.) -/
def isSpaceByte (b : Nat) : Bool :=
  b = 9 || b = 10 || b = 11 || b = 12 || b = 13 || b = 32

/-- `strings.TrimSpace` on the byte level: drop leading and trailing
whitespace bytes. -/
def trimSpace (l : List Nat) : List Nat :=
  ((l.dropWhile isSpaceByte).reverse.dropWhile isSpaceByte).reverse

/-- ASCII digit byte. -/
def isDigitByte (b : Nat) : Bool := 48 ≤ b && b ≤ 57

/-- Value of a base-10 digit string. -/
def digitsVal (l : List Nat) : Nat := l.foldl (fun a d => 10 * a + (d - 48)) 0

/-- `strconv.Atoi`: optional sign, then a non-empty run of digits, base 10;
anything else is a syntax error (`none`), and values outside the 64-bit
`int` range are a range error (`none` — the Go caller only checks
`err != nil`). -/
def atoi (l : List Nat) : Option Int :=
  let core := fun (neg : Bool) (ds : List Nat) =>
    if ds.isEmpty then none
    else if ds.all isDigitByte then
      let v : Nat := digitsVal ds
      if neg then (if v ≤ 2 ^ 63 then some (-(v : Int)) else none)
      else (if v < 2 ^ 63 then some (v : Int) else none)
    else none
  match l with
  | 45 :: rest => core true rest
  | 43 :: rest => core false rest
  | _ => core false l

/-- Split a byte list at the first `'e'`/`'E'` (exponent marker). -/
def splitExp : List Nat → List Nat × Option (List Nat)
  | [] => ([], none)
  | b :: rest =>
    if b = 101 || b = 69 then ([], some rest)
    else
      let (m, e) := splitExp rest
      (b :: m, e)

/-- Strip one optional leading sign. -/
def stripSign : List Nat → List Nat
  | 43 :: rest => rest
  | 45 :: rest => rest
  | l => l

/-- Syntactic recognizer for `strconv.ParseFloat`'s decimal forms:
`[sign] (digits [. digits] | . digits) [eE [sign] digits]`.  This abstracts
the Go library routine (special spellings such as `Inf`/`NaN` and hex floats
are omitted); no claim under proof depends on the grammar's boundary or on
the parsed IEEE value. -/
def goParseFloatOk (l : List Nat) : Bool :=
  let l1 := stripSign l
  let (m, e) := splitExp l1
  let mok :=
    match m.span (fun b => b ≠ 46) with
    | (ip, []) => !ip.isEmpty && ip.all isDigitByte
    | (ip, _ :: fp) =>
      ip.all isDigitByte && fp.all isDigitByte && (!ip.isEmpty || !fp.isEmpty)
  match e with
  | none => mok
  | some ex =>
    let ex1 := stripSign ex
    mok && (!ex1.isEmpty && ex1.all isDigitByte)

/-- A decoded field value: Go stores `string`, `int` or `float64` in the
record map.  The float value is represented by its accepted source text
(no claim inspects float numerics). -/
inductive Value where
  | str (s : List Nat) : Value
  | int (n : Int) : Value
  | float (text : List Nat) : Value
deriving DecidableEq, Repr

/-- One record, Go's `type Record map[string]interface{}`, modelled as an
association list with overwrite-on-insert (`recInsert`), so that the number
of entries is the number of distinct keys, as for the Go map. -/
abbrev Record := List (List Nat × Value)

/-- Go map assignment `rec[k] = v`: replace the binding if the key is
present, otherwise add it. -/
def recInsert : Record → List Nat → Value → Record
  | [], k, v => [(k, v)]
  | (k', v') :: rest, k, v =>
    if k' = k then (k, v) :: rest else (k', v') :: recInsert rest k v

/-- Go map lookup `rec[k]`. -/
def recLookup : Record → List Nat → Option Value
  | [], _ => none
  | (k', v') :: rest, k => if k' = k then some v' else recLookup rest k

/-- Fold a list of bindings into a record by `recInsert`. -/
def insertAll (m : Record) (l : List (List Nat × Value)) : Record :=
  l.foldl (fun acc e => recInsert acc e.1 e.2) m

/-- The per-field body of `Reader.Read`'s loop after the raw bytes have been
read: `fieldVal := strings.TrimSpace(string(buf))`, then the `switch` on the
type tag — `'F'`(70) parses a float, `'N'`(78) parses an integer via
`strconv.Atoi`, and the `default` branch (in-schema that is `'C'`) stores the
trimmed text itself.  (The Go code assigns the parse result to the map before
checking `err`; on error it returns `nil, err`, so the half-updated map is
unobservable and the model returns the error directly.) -/
def fieldValue (t : Nat) (buf : List Nat) : Except DbfError Value :=
  let fieldVal := trimSpace buf
  if t = 70 then
    if goParseFloatOk fieldVal then .ok (.float fieldVal)
    else .error (.parseFloatError fieldVal)
  else if t = 78 then
    match atoi fieldVal with
    | some n => .ok (.int n)
    | none => .error (.atoiError fieldVal)
  else .ok (.str fieldVal)

/-- The field loop of `Reader.Read`: for each field in schema order read
exactly `f.Len` bytes, decode them with `fieldValue`, and store the result
in the record under the field's decoded name (`r.FieldName(i)` for the
field at loop index `i`, i.e. `f.fieldName`).  The first error aborts the
loop and no record is returned. -/
def readFields : ByteSrc → List Field → Record → Except DbfError (Record × ByteSrc)
  | s, [], rec => .ok (rec, s)
  | s, f :: rest, rec =>
    match readN s f.len with
    | none => .error .ioError
    | some (buf, s') =>
      match fieldValue f.ftype buf with
      | .ok v => readFields s' rest (recInsert rec f.fieldName v)
      | .error e => .error e

/-- Two's-complement wrap of an integer into `int64`. -/
def wrap64 (x : Int) : Int := (x + 2 ^ 63) % 2 ^ 64 - 2 ^ 63

/-- The record offset computed by `Reader.Read`:
`offset := int64(r.headerlen) + int64(r.recordlen)*int64(i)` — the operands
are widened to `int64` first, so the arithmetic is exact unless the `int64`
product or sum itself wraps (`wrap64` is the identity in the claims'
ranges). -/
def readOffset (rd : Reader) (i : Int) : Int :=
  wrap64 ((rd.headerlen : Int) + wrap64 ((rd.recordlen : Int) * i))

/-- `Reader.Read(i)` with the final byte-source state exposed (`ReadS`):
seek to `readOffset`, read the 1-byte deletion flag — `'*'`(42) is a deleted
record, anything other than `' '`(32) is a malformed flag — then decode the
fields. -/
def ReadS (rd : Reader) (s : ByteSrc) (i : Int) :
    Except DbfError (Record × ByteSrc) :=
  let s1 := seekAbs s (readOffset rd i)
  match readN s1 1 with
  | none => .error .ioError
  | some (bs, s2) =>
    let deleted := bs.headD 0
    if deleted = 42 then .error (.deletedRecord i)
    else if deleted ≠ 32 then .error (.badDeletedFlag i deleted)
    else readFields s2 rd.fields []

/-- `Reader.Read(i)`: the record produced by `ReadS`. -/
def Reader.Read (rd : Reader) (s : ByteSrc) (i : Int) : Except DbfError Record :=
  (ReadS rd s i).map Prod.fst

/-- Sum of the declared lengths of a list of fields. -/
def sumLens (l : List Field) : Nat := (l.map Field.len).sum

/-- The `n` bytes of `data` starting at offset `p` (what a successful
`readN _ n` at cursor `p` returns). -/
def sliceAt (data : List Nat) (p n : Nat) : List Nat := (data.drop p).take n

/-- `Except.isOk` as a plain `Bool`. -/
def isOkB : Except DbfError Value → Bool
  | .ok _ => true
  | .error _ => false

/-- Derived description of a successful field loop starting at offset `p`:
the binding each field contributes, in schema order (the `getD` default is
never used when every field decodes successfully, see `fieldsOk`). -/
def entryList (data : List Nat) : Nat → List Field → List (List Nat × Value)
  | _, [] => []
  | p, f :: rest =>
    (f.fieldName, (fieldValue f.ftype (sliceAt data p f.len)).toOption.getD (.str []))
      :: entryList data (p + f.len) rest

/-- Every field's bytes are available and decode successfully when read
consecutively starting at offset `p`. -/
def fieldsOk (data : List Nat) : Nat → List Field → Bool
  | _, [] => true
  | p, f :: rest =>
    decide (p + f.len ≤ data.length) &&
      isOkB (fieldValue f.ftype (sliceAt data p f.len)) &&
      fieldsOk data (p + f.len) rest

/-! ## Helper lemmas -/

theorem readN_eq_some {s : ByteSrc} {n : Nat} {bs : List Nat} {s' : ByteSrc}
    (h : readN s n = some (bs, s')) :
    s.pos + n ≤ s.data.length ∧ bs = sliceAt s.data s.pos n ∧
      s' = ⟨s.data, s.pos + n, s.log ++ List.range' s.pos n⟩ := by
  unfold readN at h
  split at h
  · cases h
    exact ⟨by assumption, rfl, rfl⟩
  · cases h

theorem sumLens_cons (f : Field) (l : List Field) :
    sumLens (f :: l) = f.len + sumLens l := by
  simp [sumLens]

theorem sumLens_append (l1 l2 : List Field) :
    sumLens (l1 ++ l2) = sumLens l1 + sumLens l2 := by
  simp [sumLens]

theorem insertAll_cons (m : Record) (k : List Nat) (v : Value)
    (l : List (List Nat × Value)) :
    insertAll m ((k, v) :: l) = insertAll (recInsert m k v) l := rfl

theorem insertAll_append (m : Record) (l1 l2 : List (List Nat × Value)) :
    insertAll m (l1 ++ l2) = insertAll (insertAll m l1) l2 := by
  simp [insertAll]

theorem entryList_append (data : List Nat) (p : Nat) (l1 l2 : List Field) :
    entryList data p (l1 ++ l2) =
      entryList data p l1 ++ entryList data (p + sumLens l1) l2 := by
  induction l1 generalizing p with
  | nil => simp [entryList, sumLens]
  | cons f rest ih =>
    rw [List.cons_append]
    simp only [entryList, List.cons_append, List.append_eq]
    rw [ih (p + f.len), sumLens_cons, ← Nat.add_assoc]

theorem entryList_length (data : List Nat) (p : Nat) (l : List Field) :
    (entryList data p l).length = l.length := by
  induction l generalizing p with
  | nil => rfl
  | cons f rest ih => simp [entryList, ih]

theorem entryList_keys (data : List Nat) (p : Nat) (l : List Field) :
    (entryList data p l).map Prod.fst = l.map Field.fieldName := by
  induction l generalizing p with
  | nil => rfl
  | cons f rest ih => simp [entryList, ih]

theorem fieldsOk_append (data : List Nat) (p : Nat) (l1 l2 : List Field) :
    fieldsOk data p (l1 ++ l2) =
      (fieldsOk data p l1 && fieldsOk data (p + sumLens l1) l2) := by
  induction l1 generalizing p with
  | nil => simp [fieldsOk, sumLens]
  | cons f rest ih =>
    rw [List.cons_append]
    simp only [fieldsOk, List.append_eq]
    rw [ih (p + f.len), sumLens_cons, ← Nat.add_assoc]
    simp only [Bool.and_assoc]

theorem recLookup_insert_self (m : Record) (k : List Nat) (v : Value) :
    recLookup (recInsert m k v) k = some v := by
  induction m with
  | nil => simp [recInsert, recLookup]
  | cons e rest ih =>
    obtain ⟨k', v'⟩ := e
    by_cases h : k' = k
    · simp [recInsert, recLookup, h]
    · simp [recInsert, recLookup, h, ih]

theorem recLookup_insert_other (m : Record) (k k' : List Nat) (v : Value)
    (h : k' ≠ k) : recLookup (recInsert m k v) k' = recLookup m k' := by
  have hk : k ≠ k' := Ne.symm h
  induction m with
  | nil => simp [recInsert, recLookup, hk]
  | cons e rest ih =>
    obtain ⟨k0, v0⟩ := e
    by_cases h0 : k0 = k
    · subst h0
      simp [recInsert, recLookup, hk]
    · simp [recInsert, recLookup, h0, ih]

theorem recLookup_insertAll_of_not_mem (m : Record) (k : List Nat)
    (l : List (List Nat × Value)) (h : ∀ e ∈ l, e.1 ≠ k) :
    recLookup (insertAll m l) k = recLookup m k := by
  induction l generalizing m with
  | nil => rfl
  | cons e rest ih =>
    obtain ⟨k0, v0⟩ := e
    rw [insertAll_cons, ih _ (fun e he => h e (List.mem_cons_of_mem _ he)),
      recLookup_insert_other]
    exact Ne.symm (h (k0, v0) (List.mem_cons_self _ _))

theorem recInsert_length_le (m : Record) (k : List Nat) (v : Value) :
    (recInsert m k v).length ≤ m.length + 1 := by
  induction m with
  | nil => simp [recInsert]
  | cons e rest ih =>
    obtain ⟨k0, v0⟩ := e
    by_cases h : k0 = k <;> (simp [recInsert, h]; try omega)

theorem recInsert_length_of_mem (m : Record) (k : List Nat) (v : Value)
    (h : (recLookup m k).isSome) : (recInsert m k v).length = m.length := by
  induction m with
  | nil => simp [recLookup] at h
  | cons e rest ih =>
    obtain ⟨k0, v0⟩ := e
    by_cases h0 : k0 = k
    · simp [recInsert, h0]
    · simp only [recLookup, h0, if_neg] at h
      simp [recInsert, h0, ih h]

theorem recLookup_isSome_insert_self (m : Record) (k : List Nat) (v : Value) :
    (recLookup (recInsert m k v) k).isSome := by
  rw [recLookup_insert_self]; rfl

theorem recLookup_isSome_insert (m : Record) (k k' : List Nat) (v : Value)
    (h : (recLookup m k).isSome) : (recLookup (recInsert m k' v) k).isSome := by
  by_cases hk : k = k'
  · subst hk; exact recLookup_isSome_insert_self m k v
  · rwa [recLookup_insert_other m k' k v hk]

theorem recLookup_isSome_insertAll (m : Record) (k : List Nat)
    (l : List (List Nat × Value)) (h : (recLookup m k).isSome) :
    (recLookup (insertAll m l) k).isSome := by
  induction l generalizing m with
  | nil => exact h
  | cons e rest ih =>
    rw [show insertAll m (e :: rest) = insertAll (recInsert m e.1 e.2) rest from rfl]
    exact ih _ (recLookup_isSome_insert m k e.1 e.2 h)

theorem insertAll_length_le (m : Record) (l : List (List Nat × Value)) :
    (insertAll m l).length ≤ m.length + l.length := by
  induction l generalizing m with
  | nil => simp [insertAll]
  | cons e rest ih =>
    rw [show insertAll m (e :: rest) = insertAll (recInsert m e.1 e.2) rest from rfl]
    calc (insertAll (recInsert m e.1 e.2) rest).length
        ≤ (recInsert m e.1 e.2).length + rest.length := ih _
      _ ≤ m.length + 1 + rest.length :=
          Nat.add_le_add_right (recInsert_length_le m e.1 e.2) _
      _ = m.length + (e :: rest).length := by simp only [List.length_cons]; omega

theorem isOkB_toOption {e : Except DbfError Value} (h : isOkB e = true)
    (d : Value) : some (e.toOption.getD d) = e.toOption := by
  cases e with
  | ok v => rfl
  | error _ => simp [isOkB] at h

/-- Characterisation of a successful `readFields` run: every field decodes,
the produced record is the fold of the per-field bindings into the incoming
record, the cursor advances by the sum of the field lengths, and the read
log grows by exactly the consecutive byte offsets of the field bytes. -/
theorem readFields_ok_char (fields : List Field) (s : ByteSrc) (rec r' : Record)
    (s' : ByteSrc) (h : readFields s fields rec = .ok (r', s')) :
    fieldsOk s.data s.pos fields = true ∧
      r' = insertAll rec (entryList s.data s.pos fields) ∧
      s'.data = s.data ∧ s'.pos = s.pos + sumLens fields ∧
      s'.log = s.log ++ List.range' s.pos (sumLens fields) := by
  induction fields generalizing s rec with
  | nil =>
    cases h
    simp [fieldsOk, entryList, insertAll, sumLens]
  | cons f rest ih =>
    rw [readFields] at h
    split at h
    · cases h
    · rename_i buf s1 hr
      split at h
      · rename_i v hv
        obtain ⟨hle, hbuf, hs1⟩ := readN_eq_some hr
        obtain ⟨ok1, hrec, hdata, hpos, hlog⟩ := ih s1 (recInsert rec f.fieldName v) h
        subst hbuf hs1
        refine ⟨?_, ?_, ?_, ?_, ?_⟩
        · simp only [fieldsOk, Bool.and_eq_true, decide_eq_true_eq]
          exact ⟨⟨hle, by rw [hv]; rfl⟩, ok1⟩
        · rw [hrec]
          simp only [entryList, insertAll_cons, hv, Except.toOption, Option.getD_some]
        · exact hdata
        · rw [hpos, sumLens_cons]
          show s.pos + f.len + sumLens rest = s.pos + (f.len + sumLens rest)
          omega
        · rw [hlog, sumLens_cons]
          show (s.log ++ List.range' s.pos f.len) ++
              List.range' (s.pos + f.len) (sumLens rest) =
            s.log ++ List.range' s.pos (f.len + sumLens rest)
          rw [List.append_assoc]
          congr 1
          have hra := List.range'_append s.pos f.len (sumLens rest) 1
          simp only [Nat.one_mul] at hra
          rw [Nat.add_comm f.len (sumLens rest), ← hra]
      · cases h

/-- A successful prefix of the field loop composes with the rest. -/
theorem readFields_append (l1 l2 : List Field) (s s1 : ByteSrc) (rec r1 : Record)
    (h : readFields s l1 rec = .ok (r1, s1)) :
    readFields s (l1 ++ l2) rec = readFields s1 l2 r1 := by
  induction l1 generalizing s rec with
  | nil => cases h; rfl
  | cons f rest ih =>
    rw [readFields] at h
    rw [List.cons_append, readFields]
    split at h
    · cases h
    · rename_i buf s2 hr
      split at h
      · rename_i v hv
        exact ih s2 (recInsert rec f.fieldName v) h
      · cases h

/-- `fieldNameBytes` stops at the first null: for a null-free `pre`, the name
decoded from `pre ++ 0 :: suf` is `pre`, whatever `suf` is. -/
theorem fieldNameBytes_append_null (pre suf : List Nat) (h : ∀ b ∈ pre, b ≠ 0) :
    fieldNameBytes (pre ++ 0 :: suf) = pre := by
  induction pre with
  | nil => rfl
  | cons b rest ih =>
    rw [List.cons_append, fieldNameBytes, if_neg (h b (List.mem_cons_self _ _)),
      ih (fun x hx => h x (List.mem_cons_of_mem _ hx))]

/-! ## Claims -/

/-- C1. For every byte source whose header version byte is not `0x03`,
`NewReader` returns an error and no `Reader` is produced.  (If the source is
too short for the 12-byte header read, the read's own error is returned; if
the header is read and the version byte differs from 3, the format-version
error is returned.) -/
theorem c1_bad_version_errors (data : List Nat) (h : data.head? ≠ some 3) :
    (∃ e, NewReader data = .error e) ∧ ∀ rd, NewReader data ≠ .ok rd := by
  have hmain : ∃ e, NewReader data = .error e := by
    cases hr : readN (⟨data, 0, []⟩ : ByteSrc) 12 with
    | none =>
      refine ⟨.ioError, ?_⟩
      unfold NewReader
      dsimp only
      rw [hr]
    | some p =>
      obtain ⟨hb, s1⟩ := p
      obtain ⟨hle, hbs, -⟩ := readN_eq_some hr
      have hver : (decodeHeader hb).version ≠ 3 := by
        subst hbs
        cases data with
        | nil => simp at hle
        | cons a l =>
          have ha : a ≠ 3 := by
            intro hh
            exact h (by rw [hh]; rfl)
          simpa [sliceAt, decodeHeader] using ha
      refine ⟨.badVersion (decodeHeader hb).version, ?_⟩
      unfold NewReader
      dsimp only
      rw [hr]
      dsimp only
      rw [if_neg hver]
  obtain ⟨e, he⟩ := hmain
  exact ⟨⟨e, he⟩, fun rd hrd => by rw [he] at hrd; cases hrd⟩

/-- Witness for C1 at a concrete input: a 12-byte source with version byte 4. -/
theorem c1_witness :
    (∃ e, NewReader [4, 0, 0, 0, 0, 0, 0, 0, 0, 0, 0, 0] = .error e) ∧
      ∀ rd, NewReader [4, 0, 0, 0, 0, 0, 0, 0, 0, 0, 0, 0] ≠ .ok rd :=
  c1_bad_version_errors [4, 0, 0, 0, 0, 0, 0, 0, 0, 0, 0, 0] (by decide)

/-- C3. `FieldName` returns exactly the bytes before the first null byte of
the 11-byte name buffer; bytes after the first null are never included, even
when non-null bytes follow.  (`pre` is restricted to 7-bit bytes because Go
iterates the runes of the UTF-8 interpretation of the buffer; on ASCII —
which DBF names are — the rune loop is exactly the byte loop modelled here.
The garbage `suf` after the null is arbitrary.) -/
theorem c3_fieldName_stops_at_null (rd : Reader) (i : Nat) (pre suf : List Nat)
    (hname : (rd.fields.getD i ⟨[], 0, 0, 0, 0⟩).name = pre ++ 0 :: suf)
    (hlen : (pre ++ 0 :: suf).length = 11)
    (hpre : ∀ b ∈ pre, b ≠ 0 ∧ b < 128) :
    rd.FieldName i = pre := by
  rw [Reader.FieldName, hname]
  exact fieldNameBytes_append_null pre suf (fun b hb => (hpre b hb).1)

/-- Witness for C3: buffer `"NAME" ++ [0,0] ++ "GARBA"` (11 bytes) yields
`"NAME"`. -/
theorem c3_witness :
    (Reader.mk 1990 1 1 1
        [⟨[78, 65, 77, 69, 0, 0, 71, 65, 82, 66, 65], 67, 0, 5, 0⟩] 65 8).FieldName 0 =
      [78, 65, 77, 69] :=
  c3_fieldName_stops_at_null _ 0 [78, 65, 77, 69] [0, 71, 65, 82, 66, 65]
    rfl (by decide) (by decide)

/-- C8. After the field-descriptor loop, `NewReader` reads exactly one more
byte; whenever that byte `b` is not `0x0D`, parsing fails — for every value of
`headerLength` — with the error carrying the declared header length and the
actual byte (the expected byte `0x0D` is what the check compares against). -/
theorem c8_bad_terminator (data hb : List Nat) (s1 : ByteSrc)
    (fields : List Field) (s3 s4 : ByteSrc) (b : Nat)
    (h1 : readN ⟨data, 0, []⟩ 12 = some (hb, s1))
    (h2 : (decodeHeader hb).version = 3)
    (h3 : fieldLoop (data.length + 1) (seekAbs s1 32) 32
        (decodeHeader hb).headerlen [] = .ok (fields, s3))
    (h4 : readN s3 1 = some ([b], s4))
    (h5 : b ≠ 13) :
    NewReader data = .error (.badTerminator (decodeHeader hb).headerlen b) := by
  unfold NewReader
  dsimp only
  rw [h1]
  dsimp only
  rw [if_pos h2, h3]
  dsimp only
  rw [h4]
  dsimp only [List.headD_cons]
  rw [if_neg h5]

/-- The byte source for the C8 witness: a version-3 header declaring
`headerLength = 33` whose terminator byte is 99 (`'c'`), not `0x0D`. -/
def c8data : List Nat :=
  [3, 0, 0, 0, 0, 0, 0, 0, 33, 0, 9, 0] ++ List.replicate 20 0 ++ [99]

set_option maxRecDepth 20000 in
/-- Witness for C8 at `c8data`. -/
theorem c8_witness : NewReader c8data = .error (.badTerminator 33 99) :=
  c8_bad_terminator c8data [3, 0, 0, 0, 0, 0, 0, 0, 33, 0, 9, 0]
    ⟨c8data, 12, List.range' 0 12⟩
    [] ⟨c8data, 32, List.range' 0 12⟩
    ⟨c8data, 33, List.range' 0 12 ++ [32]⟩ 99
    rfl rfl rfl rfl (by decide)

/-- C4. The deletion-flag check of `Read` has exactly three outcomes, decided
by the flag byte `b` read at the record's offset: `'*'`(42) fails with the
deleted-record error carrying the record index (and no field values are
produced — the result is an error, not a record); any byte other than `'*'`
or `' '`(32) fails with the malformed-flag error; `' '` proceeds to field
decoding. -/
theorem c4_deletion_flag (rd : Reader) (s : ByteSrc) (i : Int) (b : Nat)
    (s2 : ByteSrc)
    (h1 : readN (seekAbs s (readOffset rd i)) 1 = some ([b], s2)) :
    (b = 42 → rd.Read s i = .error (.deletedRecord i)) ∧
    (b ≠ 42 → b ≠ 32 → rd.Read s i = .error (.badDeletedFlag i b)) ∧
    (b = 32 → ReadS rd s i = readFields s2 rd.fields []) := by
  refine ⟨?_, ?_, ?_⟩
  · intro hb
    subst hb
    rw [Reader.Read, ReadS]
    dsimp only
    rw [h1]
    dsimp only [List.headD_cons]
    rw [if_pos rfl]
    rfl
  · intro hb42 hb32
    rw [Reader.Read, ReadS]
    dsimp only
    rw [h1]
    dsimp only [List.headD_cons]
    rw [if_neg hb42, if_pos hb32]
    rfl
  · intro hb
    subst hb
    rw [ReadS]
    dsimp only
    rw [h1]
    dsimp only [List.headD_cons]
    rw [if_neg (by decide : ¬(32 = 42)), if_neg (by decide : ¬(32 ≠ 32))]

/-- The reader used by the C4 witness: zero fields, `headerlen = 0`,
`recordlen = 1`. -/
def c4rd : Reader := ⟨1990, 1, 1, 3, [], 0, 1⟩

/-- Witness for C4: all three flag outcomes at concrete one-byte records. -/
theorem c4_witness :
    c4rd.Read ⟨[42], 0, []⟩ 0 = .error (.deletedRecord 0) ∧
    c4rd.Read ⟨[88], 0, []⟩ 0 = .error (.badDeletedFlag 0 88) ∧
    ReadS c4rd ⟨[32], 0, []⟩ 0 = readFields ⟨[32], 1, [0]⟩ c4rd.fields [] :=
  ⟨(c4_deletion_flag c4rd ⟨[42], 0, []⟩ 0 42 ⟨[42], 1, [0]⟩ rfl).1 rfl,
   (c4_deletion_flag c4rd ⟨[88], 0, []⟩ 0 88 ⟨[88], 1, [0]⟩ rfl).2.1
     (by decide) (by decide),
   (c4_deletion_flag c4rd ⟨[32], 0, []⟩ 0 32 ⟨[32], 1, [0]⟩ rfl).2.2 rfl⟩

/-- The schema of the claimed C5 example: `name` is `C(10)`, `age` is `N(3)`,
so `recordlen = 14` (1 flag byte + 10 + 3). -/
def c5rd : Reader :=
  ⟨1990, 1, 1, 1,
   [⟨[110, 97, 109, 101, 0, 0, 0, 0, 0, 0, 0], 67, 0, 10, 0⟩,
    ⟨[97, 103, 101, 0, 0, 0, 0, 0, 0, 0, 0], 78, 0, 3, 0⟩],
   0, 14⟩

/-- The byte source of the claimed C5 example: record 0 is
`' '` ++ `"  hello   "` ++ `"025"`. -/
def c5src : ByteSrc :=
  ⟨[32, 32, 32, 104, 101, 108, 108, 111, 32, 32, 32, 48, 50, 53], 0, []⟩

/-- C5. For a live record, every field's raw bytes are trimmed of leading and
trailing whitespace before type-specific parsing (the parse result depends
only on the trimmed text, for every type tag), a `C` field's value is the
trimmed text, an `N` field's value is the trimmed text parsed as a base-10
integer, and the example record `{name: C(10) = "  hello   ", age: N(3) =
"025"}` decodes to `{"name": "hello", "age": 25}`, keyed by the decoded
field names. -/
theorem c5_trim_before_parse :
    (∀ t buf1 buf2, trimSpace buf1 = trimSpace buf2 →
      fieldValue t buf1 = fieldValue t buf2) ∧
    (∀ buf, fieldValue 67 buf = .ok (.str (trimSpace buf))) ∧
    (∀ buf n, atoi (trimSpace buf) = some n → fieldValue 78 buf = .ok (.int n)) ∧
    c5rd.Read c5src 0 =
      .ok [([110, 97, 109, 101], .str [104, 101, 108, 108, 111]),
           ([97, 103, 101], .int 25)] := by
  refine ⟨?_, ?_, ?_, ?_⟩
  · intro t buf1 buf2 h
    simp only [fieldValue, h]
  · intro buf
    rfl
  · intro buf n hn
    have hfv : fieldValue 78 buf =
        match atoi (trimSpace buf) with
        | some n => .ok (.int n)
        | none => .error (.atoiError (trimSpace buf)) := rfl
    rw [hfv, hn]
  · rfl

/-- Witness for C5: the hypothesis-bearing conjuncts applied at `"025"` with
surrounding whitespace. -/
theorem c5_witness :
    fieldValue 78 [32, 48, 50, 53, 32] = fieldValue 78 [48, 50, 53] ∧
    fieldValue 78 [48, 50, 53] = .ok (.int 25) :=
  ⟨c5_trim_before_parse.1 78 [32, 48, 50, 53, 32] [48, 50, 53] rfl,
   c5_trim_before_parse.2.2.1 [48, 50, 53] 25 rfl⟩

/-- `wrap64` is the identity on the `int64` range. -/
theorem wrap64_eq (x : Int) (h1 : -(2 ^ 63) ≤ x) (h2 : x < 2 ^ 63) :
    wrap64 x = x := by
  rw [wrap64]
  omega

/-- The offset computation of `Read` is exact whenever the schema's
`uint16` bounds hold and the index is below `2^32`: the `int64` arithmetic
cannot wrap there. -/
theorem readOffset_exact (rd : Reader) (i : Int) (hH : rd.headerlen < 65536)
    (hL : rd.recordlen < 65536) (h0 : 0 ≤ i) (hi : i < 4294967296) :
    readOffset rd i = (rd.headerlen : Int) + (rd.recordlen : Int) * i := by
  have hLc : (rd.recordlen : Int) ≤ 65535 := by exact_mod_cast Nat.lt_succ_iff.mp hL
  have hHc : (rd.headerlen : Int) ≤ 65535 := by exact_mod_cast Nat.lt_succ_iff.mp hH
  have hLnn : (0 : Int) ≤ (rd.recordlen : Int) := Int.natCast_nonneg _
  have hprod_lb : 0 ≤ (rd.recordlen : Int) * i := mul_nonneg hLnn h0
  have hprod_ub : (rd.recordlen : Int) * i ≤ 65535 * 4294967295 := by
    calc (rd.recordlen : Int) * i ≤ 65535 * i :=
          mul_le_mul_of_nonneg_right hLc h0
      _ ≤ 65535 * 4294967295 := by
          apply mul_le_mul_of_nonneg_left _ (by norm_num)
          omega
  rw [readOffset, wrap64_eq ((rd.recordlen : Int) * i) (by omega) (by omega),
    wrap64_eq _ (by omega) (by omega)]

/-- `seekAbs` to a natural-number offset sets the cursor there. -/
theorem seekAbs_natCast (s : ByteSrc) (n : Nat) :
    seekAbs s (n : Int) = { s with pos := n } := by
  rw [seekAbs, if_neg (by omega)]
  simp

/-- C2. For every schema with `headerlen = H` and `recordlen = L` in the
`uint16` range, whose field lengths sum to `L − 1` (so a record is `L` bytes:
flag plus fields), and every index `i` in `[0, recordCount)` with the
`uint32` record count: a successful `Read(i)` computes the offset `H + L·i`
exactly (no wrap-around — first conjunct) and reads exactly the bytes at
absolute offsets `H + L·i` through `H + L·i + L − 1` inclusive (the read log
is precisely that range — second conjunct). -/
theorem c2_read_offsets (rd : Reader) (s : ByteSrc) (i : Int) (rec : Record)
    (s' : ByteSrc)
    (hH : rd.headerlen < 65536) (hL : rd.recordlen < 65536)
    (h0 : 0 ≤ i) (hi : i < (rd.Length : Int)) (hn : rd.Length ≤ 4294967295)
    (hsum : 1 + sumLens rd.fields = rd.recordlen)
    (hlog : s.log = [])
    (hok : ReadS rd s i = .ok (rec, s')) :
    readOffset rd i = (rd.headerlen : Int) + (rd.recordlen : Int) * i ∧
      s'.log = List.range' (rd.headerlen + rd.recordlen * i.toNat)
        rd.recordlen := by
  have hi32 : i < 4294967296 := by
    have : (rd.Length : Int) ≤ 4294967295 := by exact_mod_cast hn
    omega
  have hoff := readOffset_exact rd i hH hL h0 hi32
  refine ⟨hoff, ?_⟩
  lift i to Nat using h0 with m
  have hoffn : readOffset rd (m : Int) =
      ((rd.headerlen + rd.recordlen * m : Nat) : Int) := by
    rw [hoff]
    push_cast
    ring
  rw [ReadS] at hok
  rw [hoffn, seekAbs_natCast] at hok
  dsimp only at hok
  cases hre : readN { s with pos := rd.headerlen + rd.recordlen * m } 1 with
  | none => rw [hre] at hok; cases hok
  | some p =>
    obtain ⟨bs, s2⟩ := p
    rw [hre] at hok
    dsimp only at hok
    obtain ⟨hle, hbs, hs2⟩ := readN_eq_some hre
    split at hok
    · cases hok
    · split at hok
      · cases hok
      · obtain ⟨-, -, -, -, hlog'⟩ :=
          readFields_ok_char rd.fields s2 [] rec s' hok
        rw [hlog', hs2]
        dsimp only
        rw [hlog]
        show ([] ++ List.range' (rd.headerlen + rd.recordlen * m) 1) ++
            List.range' (rd.headerlen + rd.recordlen * m + 1) (sumLens rd.fields) =
          _
        rw [List.nil_append]
        have hra := List.range'_append (rd.headerlen + rd.recordlen * m) 1
          (sumLens rd.fields) 1
        simp only [Nat.mul_one] at hra
        rw [hra]
        have : sumLens rd.fields + 1 = rd.recordlen := by omega
        rw [this, Int.toNat_natCast]

/-- The reader used by the C6 counterexample and witness: two Numeric fields
`A` and `B`, both `N(3)`, `headerlen = 0`, `recordlen = 7`. -/
def c6rd : Reader :=
  ⟨1990, 1, 1, 1,
   [⟨[65, 0, 0, 0, 0, 0, 0, 0, 0, 0, 0], 78, 0, 3, 0⟩,
    ⟨[66, 0, 0, 0, 0, 0, 0, 0, 0, 0, 0], 78, 0, 3, 0⟩],
   0, 7⟩

/-- Counterexample for C6 as stated: the error of a failed numeric parse does
not identify the failing field.  Two records — one whose field `A` holds
`"abc"` (field `B` holds `"  1"`), one whose field `B` holds `"abc"` (field
`A` holds `"  1"`) — fail at different fields yet produce the *same* error
value, which carries only the offending text. -/
theorem c6_counterexample :
    c6rd.Read ⟨[32, 97, 98, 99, 32, 32, 49], 0, []⟩ 0 =
        .error (.atoiError [97, 98, 99]) ∧
      c6rd.Read ⟨[32, 32, 32, 49, 97, 98, 99], 0, []⟩ 0 =
        .error (.atoiError [97, 98, 99]) ∧
      c6rd.Read ⟨[32, 97, 98, 99, 32, 32, 49], 0, []⟩ 0 =
        c6rd.Read ⟨[32, 32, 32, 49, 97, 98, 99], 0, []⟩ 0 :=
  ⟨rfl, rfl, rfl⟩

/-- C6 (amended).  When the first failing field of a live record is a
Numeric field `f` whose trimmed text does not parse as a base-10 integer,
`Read` fails with the numeric-parse error carrying that field's trimmed text
(not the field's name or index), the value is not coerced to zero or
skipped, and no record — in particular no partially-populated record — is
returned: decoding stops at `f`. -/
theorem c6_numeric_parse_error (rd : Reader) (s : ByteSrc) (i : Int)
    (s2 s3 s4 : ByteSrc) (pre post : List Field) (f : Field) (rec1 : Record)
    (buf : List Nat)
    (hflag : readN (seekAbs s (readOffset rd i)) 1 = some ([32], s2))
    (hfields : rd.fields = pre ++ f :: post)
    (hpre : readFields s2 pre [] = .ok (rec1, s3))
    (hbuf : readN s3 f.len = some (buf, s4))
    (htype : f.ftype = 78)
    (hfail : atoi (trimSpace buf) = none) :
    rd.Read s i = .error (.atoiError (trimSpace buf)) ∧
      ∀ r, rd.Read s i ≠ .ok r := by
  have hS : ReadS rd s i = readFields s2 rd.fields [] := by
    rw [ReadS]
    dsimp only
    rw [hflag]
    dsimp only [List.headD_cons]
    rw [if_neg (by decide : ¬(32 = 42)), if_neg (by decide : ¬(32 ≠ 32))]
  have hfv : fieldValue f.ftype buf = .error (.atoiError (trimSpace buf)) := by
    rw [htype]
    have hmatch : fieldValue 78 buf =
        match atoi (trimSpace buf) with
        | some n => .ok (.int n)
        | none => .error (.atoiError (trimSpace buf)) := rfl
    rw [hmatch, hfail]
  have hmain : rd.Read s i = .error (.atoiError (trimSpace buf)) := by
    rw [Reader.Read, hS, hfields,
      readFields_append pre (f :: post) s2 s3 [] rec1 hpre, readFields]
    rw [hbuf]
    dsimp only
    rw [hfv]
    rfl
  exact ⟨hmain, fun r hr => by rw [hmain] at hr; cases hr⟩

/-- Witness for the amended C6: the second record of the counterexample,
failing at field `B` (index 1) after field `A` parsed successfully. -/
theorem c6_witness :
    c6rd.Read ⟨[32, 32, 32, 49, 97, 98, 99], 0, []⟩ 0 =
        .error (.atoiError [97, 98, 99]) ∧
      ∀ r, c6rd.Read ⟨[32, 32, 32, 49, 97, 98, 99], 0, []⟩ 0 ≠ .ok r :=
  c6_numeric_parse_error c6rd ⟨[32, 32, 32, 49, 97, 98, 99], 0, []⟩ 0
    ⟨[32, 32, 32, 49, 97, 98, 99], 1, [0]⟩
    ⟨[32, 32, 32, 49, 97, 98, 99], 4, [0, 1, 2, 3]⟩
    ⟨[32, 32, 32, 49, 97, 98, 99], 7, [0, 1, 2, 3, 4, 5, 6]⟩
    [⟨[65, 0, 0, 0, 0, 0, 0, 0, 0, 0, 0], 78, 0, 3, 0⟩] []
    ⟨[66, 0, 0, 0, 0, 0, 0, 0, 0, 0, 0], 78, 0, 3, 0⟩
    [([65], .int 1)] [97, 98, 99]
    rfl rfl rfl rfl rfl rfl

/-- When the `uint16` loop bound `(hl-1) mod 2^16` exceeds 65504, the
descriptor loop can never exit normally: starting from a 32-divisible offset
at most 65504, every reachable offset stays `< bound`, so the loop runs until
a read or validation error.  (`off` cycles through multiples of 32, whose
maximum `uint16` value is 65504.) -/
theorem fieldLoop_no_exit (fuel : Nat) :
    ∀ (s : ByteSrc) (off hl : Nat) (acc : List Field),
      32 ∣ off → off ≤ 65504 → 65505 ≤ (hl + 65535) % 65536 →
      ∀ r, fieldLoop fuel s off hl acc ≠ .ok r := by
  induction fuel with
  | zero =>
    intro s off hl acc _ _ _ r h
    rw [fieldLoop] at h
    cases h
  | succ n ih =>
    intro s off hl acc hdvd hle hb r h
    rw [fieldLoop] at h
    rw [if_pos (by omega)] at h
    cases hr : readN s 32 with
    | none => rw [hr] at h; cases h
    | some p =>
      obtain ⟨bs, s1⟩ := p
      rw [hr] at h
      dsimp only at h
      cases hv : (decodeField bs).validate with
      | some e => rw [hv] at h; cases h
      | none =>
        rw [hv] at h
        dsimp only at h
        exact ih s1 ((off + 32) % 65536) hl (acc ++ [decodeField bs])
          (by omega) (by omega) hb r h

/-- Iteration count of a normally-exiting descriptor loop: starting at a
32-divisible offset with a loop bound of at most 65504 (so no `uint16` wrap
of `off` can occur before exit), a successful run appends exactly
`⌈(bound − off) / 32⌉` fields. -/
theorem fieldLoop_ok_length (fuel : Nat) :
    ∀ (s : ByteSrc) (off hl : Nat) (acc fs : List Field) (s' : ByteSrc),
      32 ∣ off → (hl + 65535) % 65536 ≤ 65504 →
      fieldLoop fuel s off hl acc = .ok (fs, s') →
      fs.length = acc.length + ((hl + 65535) % 65536 - off + 31) / 32 := by
  induction fuel with
  | zero =>
    intro s off hl acc fs s' _ _ h
    rw [fieldLoop] at h
    cases h
  | succ n ih =>
    intro s off hl acc fs s' hdvd hble h
    rw [fieldLoop] at h
    by_cases hoff : off < (hl + 65535) % 65536
    · rw [if_pos hoff] at h
      cases hr : readN s 32 with
      | none => rw [hr] at h; cases h
      | some p =>
        obtain ⟨bs, s1⟩ := p
        rw [hr] at h
        dsimp only at h
        cases hv : (decodeField bs).validate with
        | some e => rw [hv] at h; cases h
        | none =>
          rw [hv] at h
          dsimp only at h
          have hnw : (off + 32) % 65536 = off + 32 := by omega
          have := ih s1 ((off + 32) % 65536) hl (acc ++ [decodeField bs]) fs s'
            (by omega) hble h
          rw [this, hnw, List.length_append]
          have h1 : [decodeField bs].length = 1 := rfl
          rw [h1]
          omega
    · rw [if_neg hoff] at h
      cases h
      omega

/-- Every element of a `getD` lookup of a byte slice of `data` is a byte
when all of `data` is. -/
theorem sliceAt_getD_lt (data : List Nat) (hbytes : ∀ b ∈ data, b < 256)
    (p n i : Nat) : (sliceAt data p n).getD i 0 < 256 := by
  by_cases h : i < (sliceAt data p n).length
  · rw [List.getD_eq_getElem _ _ h]
    apply hbytes
    have hm : (sliceAt data p n)[i] ∈ sliceAt data p n := List.getElem_mem _
    exact ((data.drop p).take_sublist n).subset hm |>
      fun hmm => (data.drop_sublist p).subset hmm
  · rw [List.getD_eq_default _ _ (by omega)]
    omega

/-- C7 (amended).  For every successful header parse the number of parsed
fields is `⌈(headerLength − 0x21) / 32⌉ = (headerLength − 2) / 32` (natural
subtraction and division); when `headerLength ≡ 1 (mod 32)` — the
well-formed layout, with the terminator at offset `headerLength − 1` — this
coincides with the claimed `(headerLength − 0x20 − 1) / 32`. -/
theorem c7_fields_length (data : List Nat) (rd : Reader)
    (hbytes : ∀ b ∈ data, b < 256) (hok : NewReader data = .ok rd) :
    rd.fields.length = (rd.headerlen - 2) / 32 ∧
      (rd.headerlen % 32 = 1 →
        rd.fields.length = (rd.headerlen - 0x20 - 1) / 32) := by
  cases hr : readN (⟨data, 0, []⟩ : ByteSrc) 12 with
  | none =>
    rw [NewReader] at hok
    dsimp only at hok
    rw [hr] at hok
    cases hok
  | some p =>
    obtain ⟨hb, s1⟩ := p
    obtain ⟨hle12, hbs, hs1⟩ := readN_eq_some hr
    rw [NewReader] at hok
    dsimp only at hok
    rw [hr] at hok
    dsimp only at hok
    by_cases hv : (decodeHeader hb).version = 3
    · rw [if_pos hv] at hok
      have hhl : (decodeHeader hb).headerlen ≤ 65535 := by
        have h8 : hb.getD 8 0 < 256 := by
          subst hbs; exact sliceAt_getD_lt data hbytes 0 12 8
        have h9 : hb.getD (8 + 1) 0 < 256 := by
          subst hbs; exact sliceAt_getD_lt data hbytes 0 12 (8 + 1)
        show hb.getD 8 0 + 256 * hb.getD (8 + 1) 0 ≤ 65535
        omega
      cases hloop : fieldLoop (data.length + 1) (seekAbs s1 32) 32
          (decodeHeader hb).headerlen [] with
      | error e => rw [hloop] at hok; cases hok
      | ok q =>
        obtain ⟨fields, s3⟩ := q
        rw [hloop] at hok
        dsimp only at hok
        cases hterm : readN s3 1 with
        | none => rw [hterm] at hok; cases hok
        | some t =>
          obtain ⟨tb, s4⟩ := t
          rw [hterm] at hok
          dsimp only at hok
          by_cases ht : tb.headD 0 = 13
          · rw [if_pos ht] at hok
            cases hok
            dsimp only
            have hbound : ((decodeHeader hb).headerlen + 65535) % 65536 ≤ 65504 := by
              by_contra hc
              exact fieldLoop_no_exit (data.length + 1) (seekAbs s1 32) 32
                (decodeHeader hb).headerlen [] (by omega) (by omega) (by omega)
                (fields, s3) hloop
            have hcount := fieldLoop_ok_length (data.length + 1) (seekAbs s1 32)
              32 (decodeHeader hb).headerlen [] fields s3 (by omega) hbound hloop
            simp only [List.length_nil, Nat.zero_add] at hcount
            constructor
            · rw [hcount]
              omega
            · intro hmod
              rw [hcount]
              omega
          · rw [if_neg ht] at hok
            cases hok
    · rw [if_neg hv] at hok
      cases hok

/-- The byte source for the C7 counterexample: a version-3 header declaring
`headerLength = 40`; the loop still reads one whole 32-byte descriptor
(a valid `C(1)` field named `A`) because `0x20 < 40 − 1`, and then finds the
terminator `0x0D`, so parsing succeeds with 1 field although
`(40 − 0x20 − 1) / 32 = 0`. -/
def c7data : List Nat :=
  [3, 0, 0, 0, 0, 0, 0, 0, 40, 0, 2, 0] ++ List.replicate 20 0 ++
    ([65] ++ List.replicate 10 0) ++ [67] ++ [0, 0, 0, 0] ++ [1] ++ [0] ++
    List.replicate 14 0 ++ [13]

/-- Counterexample for C7 as stated: a successful version-3 parse with
`headerLength = 40` produces 1 field, but `(40 − 0x20 − 1) / 32 = 0`. -/
theorem c7_counterexample :
    (NewReader c7data).map (fun rd => (rd.headerlen, rd.fields.length)) =
        .ok (40, 1) ∧
      (1 : Nat) ≠ (40 - 0x20 - 1) / 32 :=
  ⟨rfl, by decide⟩

set_option maxRecDepth 20000 in
/-- Witness for the amended C7 at `c7data`: `(40 − 2) / 32 = 1` field. -/
theorem c7_witness :
    (Reader.mk 1900 0 0 0
          [⟨[65, 0, 0, 0, 0, 0, 0, 0, 0, 0, 0], 67, 0, 1, 0⟩] 40 2).fields.length =
        ((40 : Nat) - 2) / 32 ∧
      ((40 : Nat) % 32 = 1 →
        (Reader.mk 1900 0 0 0
            [⟨[65, 0, 0, 0, 0, 0, 0, 0, 0, 0, 0], 67, 0, 1, 0⟩] 40 2).fields.length =
          (40 - 0x20 - 1) / 32) :=
  c7_fields_length c7data _ (by decide) rfl

/-- `Field.validate` succeeds exactly on the three recognized type tags. -/
theorem validate_none_iff (f : Field) :
    f.validate = none ↔ (f.ftype = 67 ∨ f.ftype = 78 ∨ f.ftype = 70) := by
  constructor
  · intro h
    by_contra hc
    rw [Field.validate, if_neg hc] at h
    cases h
  · intro h
    rw [Field.validate, if_pos h]

/-- Every field accumulated by a normally-exiting descriptor loop passed
`validate`. -/
theorem fieldLoop_ok_valid (fuel : Nat) :
    ∀ (s : ByteSrc) (off hl : Nat) (acc fs : List Field) (s' : ByteSrc),
      (∀ f ∈ acc, f.validate = none) →
      fieldLoop fuel s off hl acc = .ok (fs, s') →
      ∀ f ∈ fs, f.validate = none := by
  induction fuel with
  | zero =>
    intro s off hl acc fs s' _ h
    rw [fieldLoop] at h
    cases h
  | succ n ih =>
    intro s off hl acc fs s' hacc h
    rw [fieldLoop] at h
    by_cases hoff : off < (hl + 65535) % 65536
    · rw [if_pos hoff] at h
      cases hr : readN s 32 with
      | none => rw [hr] at h; cases h
      | some p =>
        obtain ⟨bs, s1⟩ := p
        rw [hr] at h
        dsimp only at h
        cases hv : (decodeField bs).validate with
        | some e => rw [hv] at h; cases h
        | none =>
          rw [hv] at h
          dsimp only at h
          refine ih s1 ((off + 32) % 65536) hl (acc ++ [decodeField bs]) fs s'
            ?_ h
          intro f hf
          rcases List.mem_append.mp hf with hf | hf
          · exact hacc f hf
          · rw [List.mem_singleton.mp hf]
            exact hv
    · rw [if_neg hoff] at h
      cases h
      exact hacc

/-- C9.  Three facts about an unrecognized field-type tag:
(a) a `Reader` produced by `NewReader` never contains a field whose tag is
outside `{C, N, F}` — no schema is returned for such a descriptor;
(b) as soon as the loop reads a descriptor with an unrecognized tag, it
fails immediately with the error naming the offending character, parsing no
further descriptors (the loop returns without recursing);
(c) a loop error is `NewReader`'s verbatim result. -/
theorem c9_invalid_type_tag :
    (∀ (data : List Nat) (rd : Reader), NewReader data = .ok rd →
      ∀ f ∈ rd.fields, f.ftype = 67 ∨ f.ftype = 78 ∨ f.ftype = 70) ∧
    (∀ (fuel : Nat) (s : ByteSrc) (off hl : Nat) (acc : List Field)
        (bs : List Nat) (s1 : ByteSrc),
      off < (hl + 65535) % 65536 → readN s 32 = some (bs, s1) →
      ¬((decodeField bs).ftype = 67 ∨ (decodeField bs).ftype = 78 ∨
        (decodeField bs).ftype = 70) →
      fieldLoop (fuel + 1) s off hl acc =
        .error (.badFieldType (decodeField bs).ftype)) ∧
    (∀ (data hb : List Nat) (s1 : ByteSrc) (e : DbfError),
      readN ⟨data, 0, []⟩ 12 = some (hb, s1) →
      (decodeHeader hb).version = 3 →
      fieldLoop (data.length + 1) (seekAbs s1 32) 32
        (decodeHeader hb).headerlen [] = .error e →
      NewReader data = .error e) := by
  refine ⟨?_, ?_, ?_⟩
  · intro data rd hok f hf
    rw [← validate_none_iff]
    cases hr : readN (⟨data, 0, []⟩ : ByteSrc) 12 with
    | none =>
      rw [NewReader] at hok
      dsimp only at hok
      rw [hr] at hok
      cases hok
    | some p =>
      obtain ⟨hb, s1⟩ := p
      rw [NewReader] at hok
      dsimp only at hok
      rw [hr] at hok
      dsimp only at hok
      by_cases hv : (decodeHeader hb).version = 3
      · rw [if_pos hv] at hok
        cases hloop : fieldLoop (data.length + 1) (seekAbs s1 32) 32
            (decodeHeader hb).headerlen [] with
        | error e => rw [hloop] at hok; cases hok
        | ok q =>
          obtain ⟨fields, s3⟩ := q
          rw [hloop] at hok
          dsimp only at hok
          cases hterm : readN s3 1 with
          | none => rw [hterm] at hok; cases hok
          | some t =>
            obtain ⟨tb, s4⟩ := t
            rw [hterm] at hok
            dsimp only at hok
            by_cases ht : tb.headD 0 = 13
            · rw [if_pos ht] at hok
              cases hok
              exact fieldLoop_ok_valid (data.length + 1) (seekAbs s1 32) 32
                (decodeHeader hb).headerlen [] fields s3
                (by intro g hg; cases hg) hloop f hf
            · rw [if_neg ht] at hok
              cases hok
      · rw [if_neg hv] at hok
        cases hok
  · intro fuel s off hl acc bs s1 hoff hr hbad
    rw [fieldLoop, if_pos hoff, hr]
    dsimp only
    have hv : (decodeField bs).validate =
        some (.badFieldType (decodeField bs).ftype) := by
      rw [Field.validate, if_neg hbad]
    rw [hv]
  · intro data hb s1 e h1 h2 h3
    rw [NewReader]
    dsimp only
    rw [h1]
    dsimp only
    rw [if_pos h2, h3]

/-- The byte source for the C9 witness: a version-3 header declaring
`headerLength = 65` whose single field descriptor carries the unrecognized
type tag 88 (`'X'`). -/
def c9data : List Nat :=
  [3, 0, 0, 0, 0, 0, 0, 0, 65, 0, 0, 0] ++ List.replicate 20 0 ++
    ([65] ++ List.replicate 10 0) ++ [88] ++ [0, 0, 0, 0] ++ [3] ++ [0] ++
    List.replicate 14 0

set_option maxRecDepth 20000 in
/-- Witness for C9: (a) at the successful parse of `c7data` (all tags in
`{C, N, F}`), (b) and (c) at `c9data`, whose descriptor tagged `'X'`(88)
makes the loop and `NewReader` fail with the error naming 88. -/
theorem c9_witness :
    (∀ f ∈ (Reader.mk 1900 0 0 0
        [⟨[65, 0, 0, 0, 0, 0, 0, 0, 0, 0, 0], 67, 0, 1, 0⟩] 40 2).fields,
      f.ftype = 67 ∨ f.ftype = 78 ∨ f.ftype = 70) ∧
    fieldLoop 1 ⟨c9data, 32, List.range' 0 12⟩ 32 65 [] =
      .error (.badFieldType 88) ∧
    NewReader c9data = .error (.badFieldType 88) := by
  refine ⟨c9_invalid_type_tag.1 c7data _ rfl, ?_, ?_⟩
  · have h := c9_invalid_type_tag.2.1 0 ⟨c9data, 32, List.range' 0 12⟩ 32 65 []
      (sliceAt c9data 32 32) ⟨c9data, 64, List.range' 0 12 ++ List.range' 32 32⟩
      (by decide) rfl (by decide)
    exact h
  · have h := c9_invalid_type_tag.2.2 c9data
      [3, 0, 0, 0, 0, 0, 0, 0, 65, 0, 0, 0] ⟨c9data, 12, List.range' 0 12⟩
      (.badFieldType 88) rfl rfl rfl
    exact h

/-- `seekAbs` never changes the underlying data. -/
theorem seekAbs_data (s : ByteSrc) (o : Int) : (seekAbs s o).data = s.data := by
  rw [seekAbs]
  split <;> rfl

/-- Keys of the entries contributed by fields whose decoded names avoid `k`
also avoid `k`. -/
theorem entryList_keys_ne (data : List Nat) (p : Nat) (l : List Field)
    (k : List Nat) (h : ∀ g ∈ l, g.fieldName ≠ k) :
    ∀ e ∈ entryList data p l, e.1 ≠ k := by
  intro e he
  have hm : e.1 ∈ (entryList data p l).map Prod.fst := List.mem_map_of_mem _ he
  rw [entryList_keys] at hm
  obtain ⟨g, hg, hge⟩ := List.mem_map.mp hm
  rw [← hge]
  exact h g hg

/-- Folding two bindings of the same key into an empty record: the key ends
up bound to the *later* value, whatever the other bindings are, as long as
the bindings after the second duplicate use other keys. -/
theorem insertAll_dup_lookup (A B C : List (List Nat × Value)) (k : List Nat)
    (v1 v2 : Value) (hC : ∀ e ∈ C, e.1 ≠ k) :
    recLookup (insertAll [] (A ++ (k, v1) :: (B ++ (k, v2) :: C))) k =
      some v2 := by
  rw [show A ++ (k, v1) :: (B ++ (k, v2) :: C) =
      (A ++ (k, v1) :: B) ++ ((k, v2) :: C) by simp]
  rw [insertAll_append, insertAll_cons,
    recLookup_insertAll_of_not_mem _ _ _ hC, recLookup_insert_self]

/-- Folding bindings with a duplicated key into an empty record produces
strictly fewer entries than bindings: the second duplicate overwrites. -/
theorem insertAll_dup_length (A B C : List (List Nat × Value)) (k : List Nat)
    (v1 v2 : Value) :
    (insertAll [] (A ++ (k, v1) :: (B ++ (k, v2) :: C))).length ≤
      A.length + B.length + C.length + 1 := by
  rw [show A ++ (k, v1) :: (B ++ (k, v2) :: C) =
      (A ++ (k, v1) :: B) ++ ((k, v2) :: C) by simp]
  rw [insertAll_append, insertAll_cons]
  have l1 := insertAll_length_le ([] : Record) (A ++ (k, v1) :: B)
  have hsome : (recLookup (insertAll [] (A ++ (k, v1) :: B)) k).isSome := by
    rw [show A ++ (k, v1) :: B = (A ++ [(k, v1)]) ++ B by simp, insertAll_append]
    apply recLookup_isSome_insertAll
    rw [insertAll_append]
    exact recLookup_isSome_insert_self _ _ _
  have l2 := recInsert_length_of_mem (insertAll [] (A ++ (k, v1) :: B)) k v2 hsome
  have l3 := insertAll_length_le
    (recInsert (insertAll [] (A ++ (k, v1) :: B)) k v2) C
  simp only [List.length_append, List.length_cons, List.length_nil] at l1
  omega

/-- C10.  When exactly two fields of the schema share a decoded name —
`f1` (earlier) and `f2` (later), every other field's name differing — a
successful `Read` maps that name to the *later* field's decoded value (the
one decoded from `f2`'s bytes at its offset within the record), and the
returned mapping has strictly fewer entries than the schema has fields. -/
theorem c10_duplicate_field_names (rd : Reader) (s : ByteSrc) (i : Int)
    (pre mid post : List Field) (f1 f2 : Field) (rec : Record) (s' : ByteSrc)
    (hfields : rd.fields = pre ++ [f1] ++ mid ++ [f2] ++ post)
    (hdup : f1.fieldName = f2.fieldName)
    (hothers : ∀ g ∈ pre ++ mid ++ post, g.fieldName ≠ f2.fieldName)
    (hok : ReadS rd s i = .ok (rec, s')) :
    recLookup rec f2.fieldName =
      (fieldValue f2.ftype (sliceAt s.data
        ((seekAbs s (readOffset rd i)).pos + 1 + sumLens (pre ++ [f1] ++ mid))
        f2.len)).toOption ∧
      rec.length < rd.fields.length := by
  rw [ReadS] at hok
  dsimp only at hok
  cases hre : readN (seekAbs s (readOffset rd i)) 1 with
  | none => rw [hre] at hok; cases hok
  | some p =>
    obtain ⟨bs, s2⟩ := p
    rw [hre] at hok
    dsimp only at hok
    obtain ⟨hle1, hbs, hs2⟩ := readN_eq_some hre
    split at hok
    · cases hok
    · split at hok
      · cases hok
      · obtain ⟨hallok, hrec, -, -, -⟩ :=
          readFields_ok_char rd.fields s2 [] rec s' hok
        subst hs2
        dsimp only at hrec hallok
        rw [seekAbs_data] at hrec hallok
        rw [hfields] at hrec hallok
        rw [entryList_append, entryList_append, entryList_append,
          entryList_append] at hrec
        simp only [entryList, hdup] at hrec
        simp only [List.append_assoc, List.singleton_append, List.cons_append,
          List.nil_append] at hrec
        rw [fieldsOk_append, fieldsOk_append] at hallok
        simp only [Bool.and_eq_true] at hallok
        obtain ⟨⟨-, hf2ok⟩, -⟩ := hallok
        simp only [fieldsOk, Bool.and_eq_true, decide_eq_true_eq] at hf2ok
        obtain ⟨⟨-, hisok⟩, -⟩ := hf2ok
        simp only [List.append_assoc, List.singleton_append, List.cons_append]
          at hisok ⊢
        constructor
        · rw [hrec, insertAll_dup_lookup _ _ _ _ _ _
            (entryList_keys_ne _ _ post _
              (fun g hg => hothers g (by simp [hg])))]
          exact isOkB_toOption hisok _
        · rw [hrec, hfields]
          refine Nat.lt_of_le_of_lt (insertAll_dup_length _ _ _ _ _ _) ?_
          simp only [entryList_length, List.length_append, List.length_cons,
            List.length_nil]
          omega

/-- The reader used by the C10 witness: fields `A`(C 1), `DUP`(C 1),
`B`(C 1), `DUP`(N 2), `E`(C 1); the two `DUP` fields share their decoded
name. -/
def c10rd : Reader :=
  ⟨1990, 1, 1, 1,
   [⟨[65, 0, 0, 0, 0, 0, 0, 0, 0, 0, 0], 67, 0, 1, 0⟩,
    ⟨[68, 85, 80, 0, 0, 0, 0, 0, 0, 0, 0], 67, 0, 1, 0⟩,
    ⟨[66, 0, 0, 0, 0, 0, 0, 0, 0, 0, 0], 67, 0, 1, 0⟩,
    ⟨[68, 85, 80, 0, 0, 0, 0, 0, 0, 0, 0], 78, 0, 2, 0⟩,
    ⟨[69, 0, 0, 0, 0, 0, 0, 0, 0, 0, 0], 67, 0, 1, 0⟩],
   0, 7⟩

set_option maxRecDepth 20000 in
/-- Witness for C10: the duplicated name `"DUP"` maps to the later (Numeric)
field's value `42`, not the earlier `"x"`, and the record has 4 entries for
5 schema fields. -/
theorem c10_witness :
    recLookup
        [([65], Value.str [97]), ([68, 85, 80], Value.int 42),
         ([66], Value.str [98]), ([69], Value.str [101])] [68, 85, 80] =
      (fieldValue 78 (sliceAt [32, 97, 120, 98, 52, 50, 101]
        ((seekAbs ⟨[32, 97, 120, 98, 52, 50, 101], 0, []⟩
            (readOffset c10rd 0)).pos + 1 +
          sumLens ([⟨[65, 0, 0, 0, 0, 0, 0, 0, 0, 0, 0], 67, 0, 1, 0⟩] ++
            [⟨[68, 85, 80, 0, 0, 0, 0, 0, 0, 0, 0], 67, 0, 1, 0⟩] ++
            [⟨[66, 0, 0, 0, 0, 0, 0, 0, 0, 0, 0], 67, 0, 1, 0⟩]))
        2)).toOption ∧
      ([([65], Value.str [97]), ([68, 85, 80], Value.int 42),
        ([66], Value.str [98]), ([69], Value.str [101])] : Record).length <
        c10rd.fields.length :=
  c10_duplicate_field_names c10rd ⟨[32, 97, 120, 98, 52, 50, 101], 0, []⟩ 0
    [⟨[65, 0, 0, 0, 0, 0, 0, 0, 0, 0, 0], 67, 0, 1, 0⟩]
    [⟨[66, 0, 0, 0, 0, 0, 0, 0, 0, 0, 0], 67, 0, 1, 0⟩]
    [⟨[69, 0, 0, 0, 0, 0, 0, 0, 0, 0, 0], 67, 0, 1, 0⟩]
    ⟨[68, 85, 80, 0, 0, 0, 0, 0, 0, 0, 0], 67, 0, 1, 0⟩
    ⟨[68, 85, 80, 0, 0, 0, 0, 0, 0, 0, 0], 78, 0, 2, 0⟩
    [([65], Value.str [97]), ([68, 85, 80], Value.int 42),
     ([66], Value.str [98]), ([69], Value.str [101])]
    ⟨[32, 97, 120, 98, 52, 50, 101], 7, [0, 1, 2, 3, 4, 5, 6]⟩
    rfl rfl (by decide) rfl

/-- The reader for the C2 witness: one `C(2)` field, `headerlen = 5`,
`recordlen = 3`. -/
def c2rd : Reader :=
  ⟨1990, 1, 1, 2, [⟨[78, 65, 77, 69, 0, 0, 0, 0, 0, 0, 0], 67, 0, 2, 0⟩], 5, 3⟩

/-- Witness for C2 at record index 1 of a concrete 11-byte source: the
offset is exactly `5 + 3·1 = 8` and the read log is `[8, 9, 10]`. -/
theorem c2_witness :
    readOffset c2rd 1 = (c2rd.headerlen : Int) + (c2rd.recordlen : Int) * 1 ∧
      (⟨[0, 0, 0, 0, 0, 32, 97, 98, 32, 99, 100], 11, [8, 9, 10]⟩ : ByteSrc).log =
        List.range' (c2rd.headerlen + c2rd.recordlen * (1 : Int).toNat)
          c2rd.recordlen :=
  c2_read_offsets c2rd ⟨[0, 0, 0, 0, 0, 32, 97, 98, 32, 99, 100], 0, []⟩ 1
    [([78, 65, 77, 69], .str [99, 100])]
    ⟨[0, 0, 0, 0, 0, 32, 97, 98, 32, 99, 100], 11, [8, 9, 10]⟩
    (by decide) (by decide) (by decide) (by decide) (by decide) (by decide)
    rfl rfl

end Dbf
